import Mathlib

/-!
Shallow embedding of `src/tini.c` (a minimal PID-1 process supervisor).

The C program interacts with the OS through a handful of primitives
(`sigfillset`/`sigdelset`/`sigprocmask`, `sigtimedwait`, `kill`, `fork`,
`waitpid`).  Each primitive's outcome is supplied to the embedding as an
oracle value (the result the OS returned on that invocation), and the
functions of `tini.c` are translated as pure Lean functions of those
oracle values.  Machine `int` values that can be negative (the
`child_exitcode` sentinel `-1`) are modelled as `Int`; everything else is
`Nat`.  Numeric constants (signal numbers, errno values, the glibc wait
status macros) follow Linux/glibc on x86-64, the platform the program
targets.
-/

namespace Tini

/-! ### OS numeric constants (Linux x86-64) -/

def SIGTRAP : Nat := 5
def SIGABRT : Nat := 6
def SIGBUS : Nat := 7
def SIGFPE : Nat := 8
def SIGILL : Nat := 4
def SIGSEGV : Nat := 11
def SIGSYS : Nat := 31
def SIGCHLD : Nat := 17

def EINTR : Nat := 4
def EAGAIN : Nat := 11
def ECHILD : Nat := 10
def ESRCH : Nat := 3

/-- Highest signal number on Linux: signals are numbered `1 .. 64`. -/
def NSIG_MAX : Nat := 64

/-! ### glibc wait-status decoding

`waitpid` reports a raw status word; `tini.c` decodes it with the glibc
macros.  glibc defines
`WTERMSIG(s) = s & 0x7f`, `WIFEXITED(s) = (WTERMSIG(s) == 0)`,
`WEXITSTATUS(s) = (s & 0xff00) >> 8`, and
`WIFSIGNALED(s) = ((signed char)(((s & 0x7f) + 1)) >> 1) > 0`,
so `WIFSIGNALED` holds exactly when the low 7 bits are neither `0`
(normal exit) nor `0x7f` (stopped/continued report). -/

def WTERMSIG (s : Nat) : Nat := s % 128

def WIFEXITED (s : Nat) : Bool := s % 128 == 0

def WIFSIGNALED (s : Nat) : Bool := 1 ≤ s % 128 && s % 128 ≤ 126

def WEXITSTATUS (s : Nat) : Nat := (s / 256) % 256

/-! ### Signal sets and `prepare_sigmask` (tini.c lines 110-132) -/

/-- A `sigset_t`: a finite set of signal numbers. -/
abbrev SigSet := Finset Nat

/-- Result of `sigfillset`: all Linux signals, `1 .. 64`. -/
def fullSigSet : SigSet := Finset.Icc 1 NSIG_MAX

/-- The `ignore_signals` array of `prepare_sigmask`, in source order. -/
def ignore_signals : List Nat :=
  [SIGFPE, SIGILL, SIGSEGV, SIGBUS, SIGABRT, SIGTRAP, SIGSYS]

/-- Oracle for the three mask primitives used by `prepare_sigmask`:
whether `sigfillset` fails, whether `sigdelset` fails on a given signal
number, whether `sigprocmask` fails, and the process signal mask in
effect before the call (what `sigprocmask` writes through its third
argument on success). -/
structure MaskOracle where
  fillFails : Bool
  delFails : Nat → Bool
  procmaskFails : Bool
  prior : SigSet

/-- Result of `prepare_sigmask`: the C return value, the pair
`(parent_sigset, child_sigset)` written through the two pointer
arguments when the function succeeds, and the mask actually installed
as the process mask by `sigprocmask` (`none` when `sigprocmask` was not
reached or failed). -/
structure MaskResult where
  ret : Nat
  masks : Option (SigSet × SigSet)
  installed : Option SigSet
deriving DecidableEq

/-- The `sigdelset` loop of `prepare_sigmask`: delete each signal of
`ignore_signals` in turn, returning `none` as soon as one `sigdelset`
call fails. -/
def delLoop (o : MaskOracle) : SigSet → List Nat → Option SigSet
  | s, [] => some s
  | s, n :: rest => if o.delFails n then none else delLoop o (s.erase n) rest

/-- Function `prepare_sigmask` (tini.c lines 110-132): fill the parent set, delete
the program-error signals from it, then atomically install it as the
process mask while capturing the previous mask as the child set. -/
def prepare_sigmask (o : MaskOracle) : MaskResult :=
  if o.fillFails then ⟨1, none, none⟩
  else
    match delLoop o fullSigSet ignore_signals with
    | none => ⟨1, none, none⟩
    | some parent =>
      if o.procmaskFails then ⟨1, none, none⟩
      else ⟨0, some (parent, o.prior), some parent⟩

/-! ### `wait_and_forward_signal` (tini.c lines 134-172) -/

/-- Outcome of the `sigtimedwait` call: either failure with a given
`errno`, or a pending signal with the given `si_signo`. -/
inductive WaitSigResult where
  | err (errno : Nat)
  | sig (signo : Nat)
deriving DecidableEq

/-- Outcome of the `kill` call, when one is made. -/
inductive KillResult where
  | ok
  | fail (errno : Nat)
deriving DecidableEq

/-- Result of `wait_and_forward_signal`: the C return value and the list
of `kill(pid, sig)` invocations it performed, in order. -/
structure FwdResult where
  ret : Nat
  kills : List (Nat × Nat)
deriving DecidableEq

/-- Function `wait_and_forward_signal` (tini.c lines 134-172).  `wr` is what
`sigtimedwait` reported, `kr` what `kill` would report if invoked,
`child_pid` the main child's pid. -/
def wait_and_forward_signal (wr : WaitSigResult) (kr : KillResult)
    (child_pid : Nat) : FwdResult :=
  match wr with
  | .err e =>
    if e = EAGAIN then ⟨0, []⟩
    else if e = EINTR then ⟨0, []⟩
    else ⟨1, []⟩
  | .sig s =>
    if s = SIGCHLD then ⟨0, []⟩
    else
      match kr with
      | .ok => ⟨0, [(child_pid, s)]⟩
      | .fail e =>
        if e = ESRCH then ⟨0, [(child_pid, s)]⟩
        else ⟨1, [(child_pid, s)]⟩

/-! ### `reap_zombies` (tini.c lines 174-226) -/

/-- One outcome of a `waitpid(-1, ..., WNOHANG)` call:
`errRes e` models a `-1` return with `errno = e`, `nothing` models a `0`
return (children exist but none terminated), and `reaped pid status`
models the collection of a terminated descendant. -/
inductive WaitPidResult where
  | errRes (errno : Nat)
  | nothing
  | reaped (pid : Nat) (status : Nat)
deriving DecidableEq

/-- Function `reap_zombies` (tini.c lines 174-226), given the sequence of results
the successive `waitpid` calls return.  Yields the C return value
together with the final value of `*child_exitcode_ptr` (which starts at
the caller's sentinel `-1`).  The C loop stops at the first non-`reaped`
result, so any events after that point are never consulted. -/
def reap_zombies (child_pid : Nat) (ec : Int) :
    List WaitPidResult → Nat × Int
  | [] => (0, ec)
  | .errRes e :: _ => if e = ECHILD then (0, ec) else (1, ec)
  | .nothing :: _ => (0, ec)
  | .reaped pid status :: rest =>
    if pid = child_pid then
      if WIFEXITED status then
        reap_zombies child_pid (WEXITSTATUS status) rest
      else if WIFSIGNALED status then
        reap_zombies child_pid (128 + WTERMSIG status) rest
      else (1, ec)
    else reap_zombies child_pid ec rest

/-! ### `parse_args` (tini.c lines 66-108)

`parse_args` drives libc's `getopt` with the option string `"hv"`.
`getopt` is modelled in POSIX mode (option scanning stops at the first
non-option argument or at a bare `--`, which is consumed); GNU argv
permutation is not modelled, which only affects option tokens placed
after the first non-option argument — no claim below depends on those.
Each option character of an option token is emitted in order; characters
outside the option string are emitted as unrecognized (`getopt` would
return `'?'` for them). -/

/-- Which stream `print_usage` was given. -/
inductive UsageTarget where
  | toStdout
  | toStderr
deriving DecidableEq

/-- One `argv` element, as its character list. -/
abbrev Token := List Char

/-- One value returned by a `getopt` call: a recognized option character
(from `"hv"`), or an unrecognized one (`getopt` returns `'?'`). -/
inductive OptEvent where
  | opt (c : Char)
  | unknownOpt (c : Char)
deriving DecidableEq

/-- Classify each character of an option token against the option
string `"hv"`. -/
def scanChars (cs : List Char) : List OptEvent :=
  cs.map fun c => if c = 'h' ∨ c = 'v' then .opt c else .unknownOpt c

/-- POSIX `getopt` scan over the arguments after `argv[0]`: the stream
of option results, and the non-option tail (`argv[optind..]`). -/
def getoptScan : List Token → List OptEvent × List Token
  | [] => ([], [])
  | t :: rest =>
    match t with
    | [] => ([], t :: rest)
    | c :: cs =>
      if c = '-' then
        if cs = [] then ([], t :: rest)
        else if cs = ['-'] then ([], rest)
        else
          let p := getoptScan rest
          (scanChars cs ++ p.1, p.2)
      else ([], t :: rest)

/-- Outcome of the `while ((c = getopt(...)) != -1)` loop of
`parse_args`, carrying the final verbosity count: ran to completion,
stopped at `-h`, or stopped at an unrecognized option. -/
inductive OptOutcome where
  | done (verb : Nat)
  | help (verb : Nat)
  | badOpt (verb : Nat)
deriving DecidableEq

/-- The option-processing loop of `parse_args`: `'h'` returns
immediately (usage to stdout, exit code 0), `'v'` increments verbosity,
an unrecognized option returns immediately (usage to stderr). -/
def runOpts (verb : Nat) : List OptEvent → OptOutcome
  | [] => .done verb
  | .opt c :: rest => if c = 'h' then .help verb else runOpts (verb + 1) rest
  | .unknownOpt _ :: _ => .badOpt verb

/-- Result of `parse_args`: the C return value, the exit code it asks
`main` to use on failure (`*parse_fail_exitcode_ptr`, whose caller
default is 1 and which only the `-h` branch rewrites, to 0), the usage
prints performed with their streams, the final verbosity, and the child
argument vector (`argv[optind..]`). -/
structure ParseOut where
  ret : Nat
  exitcode : Int
  usage : List UsageTarget
  verbosity : Nat
  childArgs : List Token
deriving DecidableEq

/-- Function `parse_args` (tini.c lines 66-108).  The `calloc` failure branch is
not modelled (allocation is assumed to succeed). -/
def parse_args (argv : List Token) : ParseOut :=
  let p := getoptScan argv.tail
  match runOpts 0 p.1 with
  | .help v => ⟨1, 0, [.toStdout], v, []⟩
  | .badOpt v => ⟨1, 1, [.toStderr], v, []⟩
  | .done v =>
    if p.2.isEmpty then ⟨1, 1, [.toStderr], v, []⟩
    else ⟨0, 1, [], v, p.2⟩

/-! ### `main` and the supervision loop (tini.c lines 229-271) -/

/-- OS oracle for one iteration of the supervision loop: what
`sigtimedwait` reports, what `kill` would report if invoked, and the
sequence of `waitpid` results for this iteration's reap pass. -/
structure IterOracle where
  waitRes : WaitSigResult
  killRes : KillResult
  reapEvents : List WaitPidResult

/-- The `while (1)` loop of `main` (tini.c lines 255-270), threading
`child_exitcode` (initially the sentinel `-1`).  Returns `some code`
when the loop terminates with `main` returning `code`, and `none` when
the supplied script of iteration oracles is exhausted with the loop
still running. -/
def supervisionLoop (child_pid : Nat) : Int → List IterOracle → Option Int
  | _, [] => none
  | ec, it :: rest =>
    let f := wait_and_forward_signal it.waitRes it.killRes child_pid
    if f.ret ≠ 0 then some 1
    else
      let r := reap_zombies child_pid ec it.reapEvents
      if r.1 ≠ 0 then some 1
      else if r.2 ≠ -1 then some r.2
      else supervisionLoop child_pid r.2 rest

/-- Observable outcome of a `tini` run: the process exit code, the usage
prints performed (with their streams), and whether `spawn` (the `fork`)
was ever invoked. -/
structure MainOutcome where
  exitCode : Int
  usage : List UsageTarget
  spawnCalled : Bool
deriving DecidableEq

/-- Function `main` (tini.c lines 229-271): prepare the signal mask, parse
arguments, spawn the child, then run the supervision loop.  `forkPid`
is the oracle for `spawn`: `none` models a failed `fork`, `some pid`
the child's pid.  `none` overall means the iteration script ran out
with the loop still running. -/
def tini_main (mo : MaskOracle) (argv : List Token) (forkPid : Option Nat)
    (script : List IterOracle) : Option MainOutcome :=
  if (prepare_sigmask mo).ret ≠ 0 then some ⟨1, [], false⟩
  else
    let pr := parse_args argv
    if pr.ret ≠ 0 then some ⟨pr.exitcode, pr.usage, false⟩
    else
      match forkPid with
      | none => some ⟨1, pr.usage, true⟩
      | some cp =>
        (supervisionLoop cp (-1) script).map fun c => ⟨c, pr.usage, true⟩

/-! ### Derived predicates used by the correctness statements -/

/-- The signals `prepare_sigmask` removes from the full set, as a set. -/
def errorSigSet : SigSet :=
  {SIGFPE, SIGILL, SIGSEGV, SIGBUS, SIGABRT, SIGTRAP, SIGSYS}

/-- A `waitpid` result that `reap_zombies` handles without returning an
error and without stopping: a reaped descendant that is either not the
main child, or the main child with a status that decodes as a normal
exit or a death by signal. -/
def goodReap (cp : Nat) : WaitPidResult → Bool
  | .reaped pid s => pid != cp || WIFEXITED s || WIFSIGNALED s
  | _ => false

/-- A `waitpid` result on which `reap_zombies` returns 1: a failure with
an errno other than `ECHILD`, or the main child reaped with a status
that is neither a normal exit nor a death by signal. -/
def fatalEvent (cp : Nat) : WaitPidResult → Bool
  | .errRes e => e != ECHILD
  | .nothing => false
  | .reaped pid s => pid == cp && !WIFEXITED s && !WIFSIGNALED s

/-- A supervision-loop iteration in which nothing decisive happens: the
wait/forward step succeeds and the reap pass succeeds without touching
the exit-code sentinel. -/
def iterQuiet (cp : Nat) (it : IterOracle) : Prop :=
  (wait_and_forward_signal it.waitRes it.killRes cp).ret = 0 ∧
  reap_zombies cp (-1) it.reapEvents = (0, -1)

/-- Builds `waitpid` events for a burst of reaped descendants given as
`(pid, status)` pairs. -/
def orphanEvents (os : List (Nat × Nat)) : List WaitPidResult :=
  os.map fun p => .reaped p.1 p.2

/-! ## Theorems -/

/-- A status reporting a death by signal never also reports a normal
exit: the glibc decodings are mutually exclusive. -/
theorem WIFSIGNALED_not_exited {s : Nat} (h : WIFSIGNALED s = true) :
    WIFEXITED s = false := by
  simp only [WIFSIGNALED, WIFEXITED, Bool.and_eq_true, decide_eq_true_eq,
    beq_eq_false_iff_ne, ne_eq] at *
  omega

/-- C3: a SIGCHLD observed by `wait_and_forward_signal` is consumed and
not forwarded (no `kill` is performed and the call succeeds); any other
observed signal is delivered by exactly one `kill`, carrying the same
signal number, addressed to the main child's pid and to no other
process. -/
theorem forward_signal_exact (kr : KillResult) (cp : Nat) :
    (wait_and_forward_signal (.sig SIGCHLD) kr cp = ⟨0, []⟩) ∧
    (∀ s, s ≠ SIGCHLD →
      (wait_and_forward_signal (.sig s) kr cp).kills = [(cp, s)]) := by
  refine ⟨by simp [wait_and_forward_signal], fun s hs => ?_⟩
  cases kr with
  | ok => simp [wait_and_forward_signal, hs]
  | fail e =>
    by_cases he : e = ESRCH <;> simp [wait_and_forward_signal, hs, he]

/-- Witness for C3 at a concrete input: forwarding SIGTERM (15). -/
theorem forward_signal_exact_witness :
    (wait_and_forward_signal (.sig 15) .ok 9).kills = [(9, 15)] :=
  (forward_signal_exact .ok 9).2 15 (by decide)

/-- C4: `wait_and_forward_signal` reports a fatal error (returns 1)
exactly when `sigtimedwait` fails with an errno other than `EAGAIN` or
`EINTR`, or `kill` fails with an errno other than `ESRCH`; `EAGAIN` and
`EINTR` return success with no `kill` performed, and an `ESRCH` failure
of `kill` still returns success. -/
theorem wait_forward_fatal_iff (wr : WaitSigResult) (kr : KillResult)
    (cp : Nat) :
    ((wait_and_forward_signal wr kr cp).ret = 1 ↔
      (∃ e, wr = .err e ∧ e ≠ EAGAIN ∧ e ≠ EINTR) ∨
      (∃ s e, wr = .sig s ∧ s ≠ SIGCHLD ∧ kr = .fail e ∧ e ≠ ESRCH)) ∧
    (∀ e, wr = .err e → (e = EAGAIN ∨ e = EINTR) →
      wait_and_forward_signal wr kr cp = ⟨0, []⟩) ∧
    (∀ s, wr = .sig s → s ≠ SIGCHLD → kr = .fail ESRCH →
      (wait_and_forward_signal wr kr cp).ret = 0) := by
  cases wr with
  | err e =>
    by_cases h1 : e = EAGAIN <;> by_cases h2 : e = EINTR <;>
      simp [wait_and_forward_signal, h1, h2]
  | sig s =>
    by_cases hs : s = SIGCHLD
    · simp [wait_and_forward_signal, hs]
    · cases kr with
      | ok => simp [wait_and_forward_signal, hs]
      | fail e =>
        by_cases he : e = ESRCH <;>
          simp [wait_and_forward_signal, hs, he]

/-- Witness for C4 at a concrete input: an unexpected `sigtimedwait`
errno (5, `EIO`) is fatal. -/
theorem wait_forward_fatal_iff_witness :
    (wait_and_forward_signal (.err 5) .ok 3).ret = 1 :=
  (wait_forward_fatal_iff (.err 5) .ok 3).1.mpr
    (Or.inl ⟨5, rfl, by decide, by decide⟩)

/-- C7: a reap pass that finds nothing to collect — `waitpid` reports
"nothing currently terminated" (0) or "no descendants exist" (`ECHILD`)
— returns success and leaves the recorded exit code unchanged, and
iterating such passes any number of times is a no-op on the recorded
exit code. -/
theorem reap_idempotent_on_empty (cp : Nat) (ec : Int) (n : Nat)
    (rest : List WaitPidResult) :
    (reap_zombies cp ec (.nothing :: rest) = (0, ec)) ∧
    (reap_zombies cp ec (.errRes ECHILD :: rest) = (0, ec)) ∧
    ((fun e => (reap_zombies cp e [WaitPidResult.nothing]).2)^[n] ec = ec) ∧
    ((fun e =>
      (reap_zombies cp e [WaitPidResult.errRes ECHILD]).2)^[n] ec = ec) := by
  refine ⟨by simp [reap_zombies], by simp [reap_zombies], ?_, ?_⟩ <;>
    exact Function.iterate_fixed rfl n

/-- C9: in each iteration of the supervision loop, the wait/forward step
runs before the reap pass (a fatal wait/forward step yields exit code 1
whatever the reap events of that iteration would have been), and the
loop terminates exactly when a step is fatal (yielding 1) or the reap
pass has set the exit code (yielding that code); otherwise it continues,
and it keeps running when no decisive iteration occurs. -/
theorem loop_order_and_termination (cp : Nat) (ec : Int) (it : IterOracle)
    (rest : List IterOracle) :
    ((wait_and_forward_signal it.waitRes it.killRes cp).ret ≠ 0 →
      ∀ evs, supervisionLoop cp ec ({ it with reapEvents := evs } :: rest)
        = some 1) ∧
    ((wait_and_forward_signal it.waitRes it.killRes cp).ret = 0 →
      (reap_zombies cp ec it.reapEvents).1 ≠ 0 →
      supervisionLoop cp ec (it :: rest) = some 1) ∧
    ((wait_and_forward_signal it.waitRes it.killRes cp).ret = 0 →
      (reap_zombies cp ec it.reapEvents).1 = 0 →
      (reap_zombies cp ec it.reapEvents).2 ≠ -1 →
      supervisionLoop cp ec (it :: rest)
        = some (reap_zombies cp ec it.reapEvents).2) ∧
    ((wait_and_forward_signal it.waitRes it.killRes cp).ret = 0 →
      (reap_zombies cp ec it.reapEvents).1 = 0 →
      (reap_zombies cp ec it.reapEvents).2 = -1 →
      supervisionLoop cp ec (it :: rest) = supervisionLoop cp (-1) rest) ∧
    (supervisionLoop cp ec [] = none) := by
  refine ⟨fun hf evs => ?_, fun hf hr => ?_, fun hf hr hs => ?_,
    fun hf hr hs => ?_, rfl⟩
  · simp [supervisionLoop, hf]
  · simp [supervisionLoop, hf, hr]
  · simp [supervisionLoop, hf, hr, hs]
  · simp [supervisionLoop, hf, hr, hs]

/-- Witness for C9 at a concrete input: a fatal wait/forward step makes
the loop exit with code 1 without consulting the reap events. -/
theorem loop_order_and_termination_witness :
    supervisionLoop 3 (-1) [⟨.err 5, .ok, [.reaped 3 0]⟩] = some 1 :=
  (loop_order_and_termination 3 (-1) ⟨.err 5, .ok, []⟩ []).1 (by decide)
    [.reaped 3 0]

/-- Stepping `reap_zombies` over a prefix of benign reaps only updates
the carried exit code: for some intermediate code, the pass continues on
the remaining events. -/
theorem reap_skip_good (cp : Nat) :
    ∀ (pre : List WaitPidResult), (∀ x ∈ pre, goodReap cp x = true) →
      ∀ (ec : Int) (tail : List WaitPidResult),
        ∃ ec2, reap_zombies cp ec (pre ++ tail) = reap_zombies cp ec2 tail := by
  intro pre
  induction pre with
  | nil => exact fun _ ec _ => ⟨ec, rfl⟩
  | cons x rest ih =>
    intro hall ec tail
    have hx := hall x (List.mem_cons_self x rest)
    have hrest := fun y hy => hall y (List.mem_cons_of_mem x hy)
    cases x with
    | errRes e => simp [goodReap] at hx
    | nothing => simp [goodReap] at hx
    | reaped pid s =>
      by_cases hpid : pid = cp
      · subst hpid
        by_cases hex : WIFEXITED s = true
        · simpa [reap_zombies, hex] using ih hrest (WEXITSTATUS s) tail
        · have hsig : WIFSIGNALED s = true := by
            simp [goodReap, hex] at hx
            exact hx
          simpa [reap_zombies, hex, hsig] using
            ih hrest (128 + (WTERMSIG s : Int)) tail
      · simpa [reap_zombies, hpid] using ih hrest ec tail

/-- If `reap_zombies` reports an error, the event stream decomposes into
benign reaps followed by a fatal event. -/
theorem reap_fatal_forward (cp : Nat) :
    ∀ (evs : List WaitPidResult) (ec : Int),
      (reap_zombies cp ec evs).1 ≠ 0 →
      ∃ pre bad post, evs = pre ++ bad :: post ∧
        (∀ x ∈ pre, goodReap cp x = true) ∧ fatalEvent cp bad = true := by
  intro evs
  induction evs with
  | nil => intro ec h; simp [reap_zombies] at h
  | cons x rest ih =>
    intro ec h
    cases x with
    | errRes e =>
      by_cases he : e = ECHILD
      · simp [reap_zombies, he] at h
      · exact ⟨[], .errRes e, rest, rfl, by simp, by simp [fatalEvent, he]⟩
    | nothing => simp [reap_zombies] at h
    | reaped pid s =>
      by_cases hpid : pid = cp
      · by_cases hex : WIFEXITED s = true
        · rw [show reap_zombies cp ec (.reaped pid s :: rest)
              = reap_zombies cp (WEXITSTATUS s) rest by
                simp [reap_zombies, hpid, hex]] at h
          obtain ⟨pre, bad, post, heq, hpre, hbad⟩ := ih _ h
          exact ⟨.reaped pid s :: pre, bad, post, by simp [heq],
            by simpa [goodReap, hex] using hpre, hbad⟩
        · by_cases hsig : WIFSIGNALED s = true
          · rw [show reap_zombies cp ec (.reaped pid s :: rest)
                = reap_zombies cp (128 + (WTERMSIG s : Int)) rest by
                  simp [reap_zombies, hpid, hex, hsig]] at h
            obtain ⟨pre, bad, post, heq, hpre, hbad⟩ := ih _ h
            exact ⟨.reaped pid s :: pre, bad, post, by simp [heq],
              by simpa [goodReap, hsig] using hpre, hbad⟩
          · exact ⟨[], .reaped pid s, rest, rfl, by simp,
              by simp [fatalEvent, hpid, hex, hsig]⟩
      · rw [show reap_zombies cp ec (.reaped pid s :: rest)
            = reap_zombies cp ec rest by simp [reap_zombies, hpid]] at h
        obtain ⟨pre, bad, post, heq, hpre, hbad⟩ := ih _ h
        exact ⟨.reaped pid s :: pre, bad, post, by simp [heq],
          by simpa [goodReap, hpid] using hpre, hbad⟩

/-- C5: `reap_zombies` reports a fatal error exactly when, after any
benign collections, `waitpid` fails with an errno other than `ECHILD`
or the main child's collected status decodes as neither a normal exit
nor a death by signal; both a "nothing currently terminated" report and
an `ECHILD` report end the pass without error. -/
theorem reap_fatal_iff (cp : Nat) (ec : Int) (evs : List WaitPidResult) :
    ((reap_zombies cp ec evs).1 ≠ 0 ↔
      ∃ pre bad post, evs = pre ++ bad :: post ∧
        (∀ x ∈ pre, goodReap cp x = true) ∧ fatalEvent cp bad = true) ∧
    (∀ pre post, (∀ x ∈ pre, goodReap cp x = true) →
      (reap_zombies cp ec (pre ++ .nothing :: post)).1 = 0 ∧
      (reap_zombies cp ec (pre ++ .errRes ECHILD :: post)).1 = 0) := by
  constructor
  · constructor
    · exact reap_fatal_forward cp evs ec
    · rintro ⟨pre, bad, post, rfl, hpre, hbad⟩
      obtain ⟨ec2, heq⟩ := reap_skip_good cp pre hpre ec (bad :: post)
      rw [heq]
      cases bad with
      | errRes e =>
        have : e ≠ ECHILD := by simpa [fatalEvent] using hbad
        simp [reap_zombies, this]
      | nothing => simp [fatalEvent] at hbad
      | reaped pid s =>
        simp [fatalEvent] at hbad
        obtain ⟨⟨rfl, hex⟩, hsig⟩ := hbad
        simp [reap_zombies, hex, hsig]
  · intro pre post hpre
    constructor
    · obtain ⟨ec2, heq⟩ := reap_skip_good cp pre hpre ec (.nothing :: post)
      rw [heq]; simp [reap_zombies]
    · obtain ⟨ec2, heq⟩ :=
        reap_skip_good cp pre hpre ec (.errRes ECHILD :: post)
      rw [heq]; simp [reap_zombies]

/-- Witness for C5 at a concrete input: the main child reported with a
stopped-process status word (0x7f), which is neither an exit nor a
signal death, is fatal. -/
theorem reap_fatal_iff_witness :
    (reap_zombies 5 (-1) [.reaped 5 127]).1 ≠ 0 :=
  (reap_fatal_iff 5 (-1) [.reaped 5 127]).1.mpr
    ⟨[], .reaped 5 127, [], rfl, by simp, by decide⟩

/-- A reap pass whose events never carry the main child's pid leaves the
recorded exit code untouched. -/
theorem reap_no_main_reap_preserves (cp : Nat) :
    ∀ (evs : List WaitPidResult) (ec : Int),
      (∀ s, WaitPidResult.reaped cp s ∉ evs) →
      (reap_zombies cp ec evs).2 = ec := by
  intro evs
  induction evs with
  | nil => intro ec _; rfl
  | cons x rest ih =>
    intro ec h
    have hrest : ∀ s, WaitPidResult.reaped cp s ∉ rest := by
      intro s hs
      exact h s (List.mem_cons_of_mem x hs)
    cases x with
    | errRes e =>
      by_cases he : e = ECHILD <;> simp [reap_zombies, he]
    | nothing => simp [reap_zombies]
    | reaped pid s =>
      have hpid : pid ≠ cp := by
        intro hc
        exact h s (by rw [← hc]; exact List.mem_cons_self _ _)
      simpa [reap_zombies, hpid] using ih ec hrest

/-- Reaps of descendants other than the main child, given as
`(pid, status)` pairs, are skipped by the reap pass without touching any
state. -/
theorem reap_skip_orphans (cp : Nat) :
    ∀ (os : List (Nat × Nat)), (∀ p ∈ os, p.1 ≠ cp) →
      ∀ (ec : Int) (tail : List WaitPidResult),
        reap_zombies cp ec (orphanEvents os ++ tail)
          = reap_zombies cp ec tail := by
  intro os
  induction os with
  | nil => intro _ ec tail; rfl
  | cons p rest ih =>
    intro hall ec tail
    have hp : p.1 ≠ cp := hall p (List.mem_cons_self p rest)
    have hrest := fun q hq => hall q (List.mem_cons_of_mem p hq)
    simpa [orphanEvents, reap_zombies, hp] using ih hrest ec tail

/-- Counterexample to C6 as stated: within a single reap pass, a later
collected descendant that carries the main child's pid (possible when
the OS recycles that pid after the main child was reaped) overwrites the
already-set exit code.  With events
`[reaped 10 (status: exit 0), reaped 10 (status: killed by signal 9)]`
the code is first set to 0, then changed to 137; without the second
event it stays 0. -/
theorem exit_outcome_overwritten_on_reuse :
    (reap_zombies 10 (-1) [.reaped 10 0, .nothing]).2 = 0 ∧
    (reap_zombies 10 (-1)
      [.reaped 10 0, .reaped 10 9, .nothing]).2 = 137 := by
  constructor <;> rfl

/-- C6 amended: reaping a descendant other than the main child never
sets or changes the recorded exit code, and once the code is set by
collecting the main child it is not changed by any later event of the
pass — provided no later collected descendant carries the main child's
pid (i.e. the OS does not recycle the main child's pid during the
pass). -/
theorem exit_outcome_write_once (cp : Nat) (ec : Int)
    (evs : List WaitPidResult) (o1 : List (Nat × Nat)) (s : Nat)
    (post : List WaitPidResult) :
    ((∀ t, WaitPidResult.reaped cp t ∉ evs) →
      (reap_zombies cp ec evs).2 = ec) ∧
    ((∀ p ∈ o1, p.1 ≠ cp) → (∀ t, WaitPidResult.reaped cp t ∉ post) →
      (WIFEXITED s = true →
        (reap_zombies cp ec
          (orphanEvents o1 ++ .reaped cp s :: post)).2 = WEXITSTATUS s) ∧
      (WIFSIGNALED s = true →
        (reap_zombies cp ec
          (orphanEvents o1 ++ .reaped cp s :: post)).2
            = 128 + (WTERMSIG s : Int))) := by
  refine ⟨fun h => reap_no_main_reap_preserves cp evs ec h, ?_⟩
  intro ho1 hpost
  rw [reap_skip_orphans cp o1 ho1 ec]
  constructor
  · intro hex
    rw [show reap_zombies cp ec (.reaped cp s :: post)
        = reap_zombies cp (WEXITSTATUS s) post by simp [reap_zombies, hex]]
    exact reap_no_main_reap_preserves cp post _ hpost
  · intro hsig
    have hex := WIFSIGNALED_not_exited hsig
    rw [show reap_zombies cp ec (.reaped cp s :: post)
        = reap_zombies cp (128 + (WTERMSIG s : Int)) post by
          simp [reap_zombies, hex, hsig]]
    exact reap_no_main_reap_preserves cp post _ hpost

/-- Witness for the amended C6 at a concrete input: after the main child
(pid 10) is collected with exit status 3, a later orphan reap does not
change the recorded code. -/
theorem exit_outcome_write_once_witness :
    (reap_zombies 10 (-1)
      [.reaped 10 768, .reaped 11 9, .nothing]).2 = 3 :=
  ((exit_outcome_write_once 10 (-1) [] [] 768
      [.reaped 11 9, .nothing]).2 (by simp)
      (by intro t; simp) ).1 (by decide)

/-- Iterations in which nothing decisive happens are skipped by the
supervision loop. -/
theorem loop_skip_quiet (cp : Nat) :
    ∀ (quiet : List IterOracle), (∀ i ∈ quiet, iterQuiet cp i) →
      ∀ (rest : List IterOracle),
        supervisionLoop cp (-1) (quiet ++ rest)
          = supervisionLoop cp (-1) rest := by
  intro quiet
  induction quiet with
  | nil => intro _ rest; rfl
  | cons it q ih =>
    intro hall rest
    obtain ⟨hf, hr⟩ := hall it (List.mem_cons_self it q)
    have hq := fun j hj => hall j (List.mem_cons_of_mem it hj)
    simpa [supervisionLoop, hf, hr] using ih hq rest

/-- Counterexample to C1 as stated: a complete run in which the main
child (pid 10) exits normally with code 0 (status word 0), yet the
supervisor exits with code 137, because within the same reap pass a
later collected descendant carries the recycled pid 10 with a
killed-by-signal-9 status word and overwrites the recorded code.  So a
child that exits normally with code K does not always yield supervisor
exit code K. -/
theorem supervisor_exit_differs_on_reuse :
    tini_main ⟨false, fun _ => false, false, ∅⟩ [['t'], ['p']] (some 10)
      [⟨.sig SIGCHLD, .ok, [.reaped 10 0, .reaped 10 9, .nothing]⟩]
      = some ⟨137, [], true⟩ := by
  rfl

/-- C1 amended: a run in which the main child terminates is exit-code
transparent, provided no reap event after the main child's collection
carries the main child's pid (the OS does not recycle that pid during
the pass).  After any number of quiet iterations, an iteration whose
reap pass collects the main child (possibly among other reaped
descendants) makes the supervisor exit: with the child's own exit code
when the status decodes as a normal exit, and with `128 + N` when it
decodes as death by signal `N`. -/
theorem child_exit_code_transparent (mo : MaskOracle) (argv : List Token)
    (cp : Nat) (quiet : List IterOracle) (last : IterOracle)
    (o1 o2 : List (Nat × Nat)) (s : Nat)
    (hmask : (prepare_sigmask mo).ret = 0)
    (hparse : (parse_args argv).ret = 0)
    (hq : ∀ i ∈ quiet, iterQuiet cp i)
    (hfwd : (wait_and_forward_signal last.waitRes last.killRes cp).ret = 0)
    (hevs : last.reapEvents
      = orphanEvents o1 ++ .reaped cp s :: (orphanEvents o2 ++ [.nothing]))
    (ho1 : ∀ p ∈ o1, p.1 ≠ cp) (ho2 : ∀ p ∈ o2, p.1 ≠ cp) :
    (WIFEXITED s = true →
      tini_main mo argv (some cp) (quiet ++ [last])
        = some ⟨(WEXITSTATUS s : Int), (parse_args argv).usage, true⟩) ∧
    (WIFSIGNALED s = true →
      tini_main mo argv (some cp) (quiet ++ [last])
        = some ⟨128 + (WTERMSIG s : Int), (parse_args argv).usage, true⟩) := by
  have hloop : supervisionLoop cp (-1) (quiet ++ [last])
      = supervisionLoop cp (-1) [last] := loop_skip_quiet cp quiet hq [last]
  constructor
  · intro hex
    have hreap : reap_zombies cp (-1) last.reapEvents
        = (0, (WEXITSTATUS s : Int)) := by
      rw [hevs, reap_skip_orphans cp o1 ho1]
      rw [show reap_zombies cp (-1)
            (.reaped cp s :: (orphanEvents o2 ++ [.nothing]))
          = reap_zombies cp (WEXITSTATUS s) (orphanEvents o2 ++ [.nothing])
          by simp [reap_zombies, hex]]
      rw [reap_skip_orphans cp o2 ho2]
      rfl
    have hfin : supervisionLoop cp (-1) [last]
        = some (WEXITSTATUS s : Int) := by
      have hne : ((WEXITSTATUS s : Int)) ≠ -1 := by
        have : (0 : Int) ≤ (WEXITSTATUS s : Int) := Int.ofNat_nonneg _
        omega
      simp [supervisionLoop, hfwd, hreap, hne]
    simp [tini_main, hmask, hparse, hloop, hfin]
  · intro hsig
    have hex := WIFSIGNALED_not_exited hsig
    have hreap : reap_zombies cp (-1) last.reapEvents
        = (0, 128 + (WTERMSIG s : Int)) := by
      rw [hevs, reap_skip_orphans cp o1 ho1]
      rw [show reap_zombies cp (-1)
            (.reaped cp s :: (orphanEvents o2 ++ [.nothing]))
          = reap_zombies cp (128 + (WTERMSIG s : Int))
              (orphanEvents o2 ++ [.nothing])
          by simp [reap_zombies, hex, hsig]]
      rw [reap_skip_orphans cp o2 ho2]
      rfl
    have hfin : supervisionLoop cp (-1) [last]
        = some (128 + (WTERMSIG s : Int)) := by
      have hne : (128 + (WTERMSIG s : Int)) ≠ -1 := by
        have : (0 : Int) ≤ (WTERMSIG s : Int) := Int.ofNat_nonneg _
        omega
      simp [supervisionLoop, hfwd, hreap, hne]
    simp [tini_main, hmask, hparse, hloop, hfin]

/-- When every `sigdelset` call succeeds, the delete loop returns the
left fold of `Finset.erase` over the signal list. -/
theorem delLoop_some (o : MaskOracle) :
    ∀ (l : List Nat) (s : SigSet), (∀ n ∈ l, o.delFails n = false) →
      delLoop o s l = some (l.foldl Finset.erase s) := by
  intro l
  induction l with
  | nil => intro s _; rfl
  | cons m rest ih =>
    intro s hall
    have hm := hall m (List.mem_cons_self m rest)
    have hrest := fun n hn => hall n (List.mem_cons_of_mem m hn)
    simp [delLoop, hm, ih (s.erase m) hrest]

/-- If some `sigdelset` call in the list fails, the delete loop fails. -/
theorem delLoop_none (o : MaskOracle) :
    ∀ (l : List Nat) (s : SigSet), (∃ n ∈ l, o.delFails n = true) →
      delLoop o s l = none := by
  intro l
  induction l with
  | nil => intro s h; simp at h
  | cons m rest ih =>
    intro s h
    by_cases hm : o.delFails m = true
    · simp [delLoop, hm]
    · obtain ⟨n, hn, htrue⟩ := h
      have hmem : n ∈ rest := by
        rcases List.mem_cons.mp hn with rfl | h2
        · exact absurd htrue hm
        · exact h2
      have hmf : o.delFails m = false := by simpa using hm
      simp only [delLoop, hmf, Bool.false_eq_true, if_false]
      exact ih (s.erase m) ⟨n, hmem, htrue⟩

/-- C2: `prepare_sigmask` succeeds exactly when all three underlying
mask primitives succeed; on success the parent mask is the set of all
signals minus exactly the fixed error-signal set, that mask is the one
installed as the process mask, and the child mask is the mask that was
in effect before the call; on any failure it returns nonzero and `main`
exits with code 1 without ever calling `spawn`. -/
theorem prepare_sigmask_contract (o : MaskOracle) :
    ((prepare_sigmask o).ret = 0 ↔
      o.fillFails = false ∧ (∀ n ∈ ignore_signals, o.delFails n = false) ∧
        o.procmaskFails = false) ∧
    ((prepare_sigmask o).ret = 0 →
      (prepare_sigmask o).masks = some (fullSigSet \ errorSigSet, o.prior) ∧
      (prepare_sigmask o).installed = some (fullSigSet \ errorSigSet)) ∧
    ((prepare_sigmask o).ret ≠ 0 → ∀ argv sp script,
      (tini_main o argv sp script).map MainOutcome.exitCode = some 1 ∧
      (tini_main o argv sp script).map MainOutcome.spawnCalled
        = some false) := by
  have hfold : ignore_signals.foldl Finset.erase fullSigSet
      = fullSigSet \ errorSigSet := by decide
  by_cases hf : o.fillFails
  · have hprep : prepare_sigmask o = ⟨1, none, none⟩ := by
      simp [prepare_sigmask, hf]
    refine ⟨by simp [hprep, hf], by simp [hprep], fun _ argv sp script => ?_⟩
    simp [tini_main, hprep]
  · by_cases hd : ∀ n ∈ ignore_signals, o.delFails n = false
    · have hsome : delLoop o fullSigSet ignore_signals
          = some (fullSigSet \ errorSigSet) := by
        rw [delLoop_some o ignore_signals fullSigSet hd, hfold]
      by_cases hp : o.procmaskFails
      · have hprep : prepare_sigmask o = ⟨1, none, none⟩ := by
          simp [prepare_sigmask, hf, hsome, hp]
        refine ⟨by simp [hprep, hp], by simp [hprep],
          fun _ argv sp script => ?_⟩
        simp [tini_main, hprep]
      · have hprep : prepare_sigmask o
            = ⟨0, some (fullSigSet \ errorSigSet, o.prior),
               some (fullSigSet \ errorSigSet)⟩ := by
          simp [prepare_sigmask, hf, hsome, hp]
        refine ⟨?_, by simp [hprep], fun h0 => absurd (by simp [hprep]) h0⟩
        rw [hprep]
        exact ⟨fun _ => ⟨by simpa using hf, hd, by simpa using hp⟩,
          fun _ => rfl⟩
    · have hex : ∃ n ∈ ignore_signals, o.delFails n = true := by
        push_neg at hd
        obtain ⟨n, hn, hne⟩ := hd
        exact ⟨n, hn, by simpa using hne⟩
      have hnone : delLoop o fullSigSet ignore_signals = none :=
        delLoop_none o ignore_signals fullSigSet hex
      have hprep : prepare_sigmask o = ⟨1, none, none⟩ := by
        simp [prepare_sigmask, hf, hnone]
      refine ⟨by simp [hprep, hd], by simp [hprep],
        fun _ argv sp script => ?_⟩
      simp [tini_main, hprep]

/-- Witness for C2 at a concrete input: with all primitives succeeding
and prior mask `{2}`, the parent mask is all signals except the seven
error signals and the child mask is the prior mask. -/
theorem prepare_sigmask_contract_witness :
    (prepare_sigmask ⟨false, fun _ => false, false, {2}⟩).masks
      = some (fullSigSet \ errorSigSet, {2}) :=
  ((prepare_sigmask_contract ⟨false, fun _ => false, false, {2}⟩).2.1
    (by rfl)).1

/-- C10: `main` runs the signal-mask setup before argument parsing, so
when the mask setup fails the run exits with code 1 with no usage output
and no spawn, and the outcome is the same whatever the command line —
including one carrying the help flag. -/
theorem mask_setup_before_parsing (mo : MaskOracle)
    (h : (prepare_sigmask mo).ret ≠ 0) (argv argv' : List Token)
    (sp sp' : Option Nat) (script script' : List IterOracle) :
    tini_main mo argv sp script = some ⟨1, [], false⟩ ∧
    tini_main mo argv sp script = tini_main mo argv' sp' script' := by
  constructor <;> simp [tini_main, h]

/-- Witness for C10 at a concrete input: with `sigfillset` failing, even
an invocation with `-h` exits 1 with no usage printed. -/
theorem mask_setup_before_parsing_witness :
    tini_main ⟨true, fun _ => false, false, ∅⟩ [['t'], ['-', 'h']] none []
      = some ⟨1, [], false⟩ :=
  (mask_setup_before_parsing ⟨true, fun _ => false, false, ∅⟩ (by decide)
    [['t'], ['-', 'h']] [] none none [] []).1

/-- A run of `-v` tokens is scanned by `getopt` into that many `v`
option results, the scan continuing on the remaining arguments. -/
theorem getoptScan_vs (k : Nat) :
    ∀ l, getoptScan (List.replicate k ['-', 'v'] ++ l)
      = (List.replicate k (OptEvent.opt 'v') ++ (getoptScan l).1,
         (getoptScan l).2) := by
  induction k with
  | zero => intro l; simp
  | succ m ih =>
    intro l
    simp only [List.replicate_succ, List.cons_append]
    rw [show getoptScan (['-', 'v'] :: (List.replicate m ['-', 'v'] ++ l))
        = (scanChars ['v']
            ++ (getoptScan (List.replicate m ['-', 'v'] ++ l)).1,
           (getoptScan (List.replicate m ['-', 'v'] ++ l)).2) from rfl]
    rw [ih l]
    simp [scanChars]

/-- A run of `v` option results only increments the verbosity count. -/
theorem runOpts_vs (k : Nat) :
    ∀ (verb : Nat) (l : List OptEvent),
      runOpts verb (List.replicate k (OptEvent.opt 'v') ++ l)
        = runOpts (verb + k) l := by
  induction k with
  | zero => intro verb l; rfl
  | succ m ih =>
    intro verb l
    simp only [List.replicate_succ, List.cons_append]
    rw [show runOpts verb
          (OptEvent.opt 'v' :: (List.replicate m (OptEvent.opt 'v') ++ l))
        = runOpts (verb + 1)
            (List.replicate m (OptEvent.opt 'v') ++ l) from rfl]
    rw [ih (verb + 1) l]
    congr 1
    omega

/-- C8: after mask setup succeeds, an invocation whose options (after
any number of `-v` flags) reach `-h` prints usage to standard output and
exits 0 without spawning a child; one that reaches an unrecognized
option letter prints usage to the error stream and exits 1 without
spawning; and one whose argument vector contains no program after the
options prints usage to the error stream and exits 1 without
spawning. -/
theorem parse_args_help (a0 : Token) (rest : List Token) (k : Nat) :
    parse_args (a0 :: (List.replicate k ['-', 'v'] ++ ['-', 'h'] :: rest))
      = ⟨1, 0, [.toStdout], k, []⟩ := by
  have hscan : getoptScan (List.replicate k ['-', 'v'] ++ ['-', 'h'] :: rest)
      = (List.replicate k (OptEvent.opt 'v')
          ++ OptEvent.opt 'h' :: (getoptScan rest).1,
         (getoptScan rest).2) := by
    rw [getoptScan_vs]; rfl
  simp only [parse_args, List.tail_cons, hscan, runOpts_vs, Nat.zero_add]
  rfl

theorem parse_args_badopt (a0 : Token) (rest : List Token) (k : Nat)
    (c : Char) (hch : c ≠ 'h') (hcv : c ≠ 'v') (hcd : c ≠ '-') :
    parse_args (a0 :: (List.replicate k ['-', 'v'] ++ ['-', c] :: rest))
      = ⟨1, 1, [.toStderr], k, []⟩ := by
  have hone : getoptScan (['-', c] :: rest)
      = (OptEvent.unknownOpt c :: (getoptScan rest).1,
         (getoptScan rest).2) := by
    simp [getoptScan, hcd, scanChars, hch, hcv]
  have hscan : getoptScan (List.replicate k ['-', 'v'] ++ ['-', c] :: rest)
      = (List.replicate k (OptEvent.opt 'v')
          ++ OptEvent.unknownOpt c :: (getoptScan rest).1,
         (getoptScan rest).2) := by
    rw [getoptScan_vs, hone]
  simp only [parse_args, List.tail_cons, hscan, runOpts_vs, Nat.zero_add]
  rfl

theorem parse_args_noprog (a0 : Token) (k : Nat) :
    parse_args (a0 :: List.replicate k ['-', 'v'])
      = ⟨1, 1, [.toStderr], k, []⟩ := by
  have hscan : getoptScan (List.replicate k ['-', 'v'])
      = (List.replicate k (OptEvent.opt 'v'), []) := by
    have h := getoptScan_vs k []
    rw [List.append_nil] at h
    simpa [getoptScan] using h
  have hro : runOpts 0 (List.replicate k (OptEvent.opt 'v'))
      = .done k := by
    have h := runOpts_vs k 0 []
    rw [List.append_nil] at h
    simpa using h
  simp only [parse_args, List.tail_cons, hscan, hro]
  rfl

/-- C8: after mask setup succeeds, an invocation whose options (after
any number of `-v` flags) reach `-h` prints usage to standard output and
exits 0 without spawning a child; one that reaches an unrecognized
option letter prints usage to the error stream and exits 1 without
spawning; and one whose argument vector contains no program after the
options prints usage to the error stream and exits 1 without
spawning. -/
theorem invocation_interface (mo : MaskOracle) (a0 : Token)
    (rest : List Token) (k : Nat) (sp : Option Nat)
    (script : List IterOracle)
    (hmask : (prepare_sigmask mo).ret = 0) :
    (tini_main mo (a0 :: (List.replicate k ['-', 'v'] ++ ['-', 'h'] :: rest))
        sp script = some ⟨0, [.toStdout], false⟩) ∧
    (∀ c, c ≠ 'h' → c ≠ 'v' → c ≠ '-' →
      tini_main mo (a0 :: (List.replicate k ['-', 'v'] ++ ['-', c] :: rest))
        sp script = some ⟨1, [.toStderr], false⟩) ∧
    (tini_main mo (a0 :: List.replicate k ['-', 'v']) sp script
      = some ⟨1, [.toStderr], false⟩) := by
  refine ⟨?_, fun c hch hcv hcd => ?_, ?_⟩
  · simp [tini_main, hmask, parse_args_help a0 rest k]
  · simp [tini_main, hmask, parse_args_badopt a0 rest k c hch hcv hcd]
  · simp [tini_main, hmask, parse_args_noprog a0 k]

/-- Witness for C8 at a concrete input: `tini -z prog` prints usage to
the error stream, exits 1, and spawns nothing. -/
theorem invocation_interface_witness :
    tini_main ⟨false, fun _ => false, false, ∅⟩ [['t'], ['-', 'z'], ['p']]
      none [] = some ⟨1, [.toStderr], false⟩ :=
  (invocation_interface ⟨false, fun _ => false, false, ∅⟩ ['t'] [['p']] 0
    none [] (by rfl)).2.1 'z' (by decide) (by decide) (by decide)

/-- Witness for C1 at a concrete input: the main child (pid 10) exits
normally with code 7 (status word 1792 = 7·256) after one quiet timeout
iteration, and the supervisor exits with code 7. -/
theorem child_exit_code_transparent_witness :
    tini_main ⟨false, fun _ => false, false, ∅⟩ [['t'], ['p']] (some 10)
      [⟨.err EAGAIN, .ok, [.nothing]⟩,
       ⟨.sig SIGCHLD, .ok, [.reaped 10 1792, .nothing]⟩]
      = some ⟨7, [], true⟩ := by
  exact (child_exit_code_transparent ⟨false, fun _ => false, false, ∅⟩
    [['t'], ['p']] 10 [⟨.err EAGAIN, .ok, [.nothing]⟩]
    ⟨.sig SIGCHLD, .ok, [.reaped 10 1792, .nothing]⟩ [] [] 1792
    (by rfl) (by rfl) (by simp [iterQuiet]; exact ⟨rfl, rfl⟩) (by rfl)
    (by simp [orphanEvents]) (by simp) (by simp)).1 (by decide)

end Tini
